import Mathlib

set_option maxRecDepth 16000

/-
  Verification development for src/main.py of the ai-first-learning-app
  repository.  The Python source is shallowly embedded below: pure string
  manipulation becomes Lean string functions, `json.loads` / `json.dumps`
  become an executable JSON model, the transcript of events becomes a list
  of tagged parts, and functions that may raise become `Except`-valued
  functions.  Unicode character classes of the Python regexes are modelled
  over their ASCII fragment.
-/

namespace AiLearn

/-- Python whitespace: the characters removed by str.strip() and matched by
the regex class \s (ASCII fragment). -/
def pyIsSpace (c : Char) : Bool :=
  c = ' ' || c = '\t' || c = '\n' || c = '\r' || c = '\x0b' || c = '\x0c'

/-- Python str.strip(). -/
def pyStrip (s : String) : String :=
  String.mk (((s.data.dropWhile pyIsSpace).reverse.dropWhile pyIsSpace).reverse)

/-- Characters after the first occurrence of needle, none when needle does
not occur.  Models the position found by Python re/str searching. -/
def afterFirst (needle : List Char) : List Char → Option (List Char)
  | [] => if needle.isEmpty then some [] else none
  | c :: rest =>
    if needle.isPrefixOf (c :: rest) then some ((c :: rest).drop needle.length)
    else afterFirst needle rest

/-- Characters before the first occurrence of needle. -/
def beforeFirst (needle : List Char) : List Char → Option (List Char)
  | [] => if needle.isEmpty then some [] else none
  | c :: rest =>
    if needle.isPrefixOf (c :: rest) then some []
    else (beforeFirst needle rest).map (c :: ·)

/-- Python substring containment (the `in` operator on str). -/
def containsSubstr (hay needle : String) : Bool :=
  (afterFirst needle.data hay.data).isSome

/-- Python str.lower() (ASCII fragment). -/
def pyLower (s : String) : String := String.mk (s.data.map Char.toLower)

/-- Python str.split("\n"): split at every newline, keeping empty pieces. -/
def splitLines : List Char → List (List Char)
  | [] => [[]]
  | c :: rest =>
    if c = '\n' then [] :: splitLines rest
    else
      match splitLines rest with
      | l :: ls => (c :: l) :: ls
      | [] => [[c]]

/-- Python "\n".join on character lists. -/
def joinNL : List (List Char) → List Char
  | [] => []
  | [l] => l
  | l :: l2 :: ls => l ++ '\n' :: joinNL (l2 :: ls)

/-- JSON values as produced by Python json.loads.  Numbers keep their source
lexeme.  Objects keep key/value pairs in insertion order, later duplicate
keys overwriting the value in place, like a Python dict. -/
inductive Json where
  | null
  | bool (b : Bool)
  | num (lexeme : String)
  | str (s : String)
  | arr (items : List Json)
  | obj (entries : List (String × Json))

/-- Python dict lookup on the entry list of a parsed object. -/
def jget (entries : List (String × Json)) (k : String) : Option Json :=
  match entries with
  | [] => none
  | (k2, v) :: rest => if k2 = k then some v else jget rest k

/-- Python dict insertion: overwrite the value of an existing key in place,
otherwise append. -/
def insertKV (entries : List (String × Json)) (k : String) (v : Json) :
    List (String × Json) :=
  if entries.any (fun kv => kv.1 = k) then
    entries.map (fun kv => if kv.1 = k then (k, v) else kv)
  else entries ++ [(k, v)]

/-- The whitespace accepted between JSON tokens by Python's json module. -/
def jsonWs (c : Char) : Bool :=
  c = ' ' || c = '\t' || c = '\n' || c = '\r'

/-- Hexadecimal digit value, for string escapes. -/
def hexVal (c : Char) : Option Nat :=
  if '0' ≤ c ∧ c ≤ '9' then some (c.toNat - '0'.toNat)
  else if 'a' ≤ c ∧ c ≤ 'f' then some (c.toNat - 'a'.toNat + 10)
  else if 'A' ≤ c ∧ c ≤ 'F' then some (c.toNat - 'A'.toNat + 10)
  else none

/-- Single-character JSON string escapes. -/
def escSimple (e : Char) : Option Char :=
  if e = '"' then some '"'
  else if e = '\\' then some '\\'
  else if e = '/' then some '/'
  else if e = 'b' then some '\x08'
  else if e = 'f' then some '\x0c'
  else if e = 'n' then some '\n'
  else if e = 'r' then some '\r'
  else if e = 't' then some '\t'
  else none

/-- JSON string literal body (after the opening quote): returns the decoded
string and the characters after the closing quote.  Unescaped control
characters are rejected, as in Python. -/
def parseStrAux : Nat → List Char → List Char → Option (String × List Char)
  | 0, _, _ => none
  | _ + 1, _, [] => none
  | fuel + 1, acc, c :: rest =>
    if c = '"' then some (String.mk acc.reverse, rest)
    else if c = '\\' then
      match rest with
      | [] => none
      | 'u' :: h1 :: h2 :: h3 :: h4 :: rest2 =>
        match hexVal h1, hexVal h2, hexVal h3, hexVal h4 with
        | some a, some b, some c2, some d =>
          let code := ((a * 16 + b) * 16 + c2) * 16 + d
          if 0xd800 ≤ code ∧ code ≤ 0xdfff then none
          else parseStrAux fuel (Char.ofNat code :: acc) rest2
        | _, _, _, _ => none
      | e :: rest2 =>
        match escSimple e with
        | some ch => parseStrAux fuel (ch :: acc) rest2
        | none => none
    else if c.toNat < 0x20 then none
    else parseStrAux fuel (c :: acc) rest

/-- JSON number lexeme, per the JSON grammar used by Python's json module. -/
def parseNumber (cs : List Char) : Option (String × List Char) :=
  let signed :=
    match cs with
    | '-' :: r => (['-'], r)
    | _ => (([] : List Char), cs)
  let sign := signed.1
  let cs1 := signed.2
  match cs1 with
  | [] => none
  | c :: _ =>
    if c.isDigit then
      let ip := if c = '0' then ['0'] else cs1.takeWhile Char.isDigit
      let r1 := cs1.drop ip.length
      let fr :=
        match r1 with
        | '.' :: r =>
          let ds := r.takeWhile Char.isDigit
          if ds.isEmpty then (([] : List Char), r1) else ('.' :: ds, r.drop ds.length)
        | _ => (([] : List Char), r1)
      let ex :=
        match fr.2 with
        | e :: r =>
          if e = 'e' || e = 'E' then
            let sg :=
              match r with
              | s :: rb => if s = '+' || s = '-' then ([s], rb) else (([] : List Char), s :: rb)
              | [] => (([] : List Char), ([] : List Char))
            let ds := sg.2.takeWhile Char.isDigit
            if ds.isEmpty then (([] : List Char), fr.2)
            else (e :: (sg.1 ++ ds), sg.2.drop ds.length)
          else (([] : List Char), fr.2)
        | [] => (([] : List Char), fr.2)
      some (String.mk (sign ++ ip ++ fr.1 ++ ex.1), ex.2)
    else none

mutual

/-- One JSON value starting at the given characters (leading whitespace
already skipped); returns the value and the remaining characters. -/
def parseVal : Nat → List Char → Option (Json × List Char)
  | 0, _ => none
  | _ + 1, [] => none
  | fuel + 1, c :: rest =>
    if c = 'n' then
      match rest with
      | 'u' :: 'l' :: 'l' :: r => some (Json.null, r)
      | _ => none
    else if c = 't' then
      match rest with
      | 'r' :: 'u' :: 'e' :: r => some (Json.bool true, r)
      | _ => none
    else if c = 'f' then
      match rest with
      | 'a' :: 'l' :: 's' :: 'e' :: r => some (Json.bool false, r)
      | _ => none
    else if c = '"' then
      match parseStrAux (rest.length + 1) [] rest with
      | some (s, r) => some (Json.str s, r)
      | none => none
    else if c = '[' then
      match rest.dropWhile jsonWs with
      | ']' :: r2 => some (Json.arr [], r2)
      | r1 =>
        match parseArrItems fuel r1 [] with
        | some (xs, r2) => some (Json.arr xs, r2)
        | none => none
    else if c = '{' then
      match rest.dropWhile jsonWs with
      | '}' :: r2 => some (Json.obj [], r2)
      | r1 =>
        match parseObjItems fuel r1 [] with
        | some (kvs, r2) => some (Json.obj kvs, r2)
        | none => none
    else
      match parseNumber (c :: rest) with
      | some (s, r) => some (Json.num s, r)
      | none => none

/-- Items of a JSON array after the opening bracket. -/
def parseArrItems : Nat → List Char → List Json → Option (List Json × List Char)
  | 0, _, _ => none
  | fuel + 1, cs, acc =>
    match parseVal fuel cs with
    | none => none
    | some (v, r) =>
      match r.dropWhile jsonWs with
      | ',' :: r2 => parseArrItems fuel (r2.dropWhile jsonWs) (acc ++ [v])
      | ']' :: r2 => some (acc ++ [v], r2)
      | _ => none

/-- Members of a JSON object after the opening brace. -/
def parseObjItems : Nat → List Char → List (String × Json) →
    Option (List (String × Json) × List Char)
  | 0, _, _ => none
  | fuel + 1, cs, acc =>
    match cs with
    | '"' :: rest =>
      match parseStrAux (rest.length + 1) [] rest with
      | none => none
      | some (k, r) =>
        match r.dropWhile jsonWs with
        | ':' :: r2 =>
          match parseVal fuel (r2.dropWhile jsonWs) with
          | none => none
          | some (v, r3) =>
            match r3.dropWhile jsonWs with
            | ',' :: r4 => parseObjItems fuel (r4.dropWhile jsonWs) (insertKV acc k v)
            | '}' :: r4 => some (insertKV acc k v, r4)
            | _ => none
        | _ => none
    | _ => none

end

/-- Python json.loads: parse one JSON document, requiring the whole input to
be consumed; none models json.JSONDecodeError.  (The nonstandard NaN and
Infinity literals accepted by Python are outside the model.) -/
def json_loads (s : String) : Option Json :=
  match parseVal (2 * s.length + 2) (s.data.dropWhile jsonWs) with
  | some (v, r) => if (r.dropWhile jsonWs).isEmpty then some v else none
  | none => none

/-- Lower-case hexadecimal digit. -/
def hexDigit (n : Nat) : Char :=
  if n < 10 then Char.ofNat ('0'.toNat + n) else Char.ofNat ('a'.toNat + (n - 10))

/-- Four lower-case hex digits, as in Python's \uXXXX escapes. -/
def hex4 (n : Nat) : List Char :=
  [hexDigit (n / 4096 % 16), hexDigit (n / 256 % 16), hexDigit (n / 16 % 16), hexDigit (n % 16)]

/-- How Python json.dumps (ensure_ascii=True) renders one character of a
string. -/
def escJsonChar (c : Char) : List Char :=
  if c = '"' then ['\\', '"']
  else if c = '\\' then ['\\', '\\']
  else if c = '\n' then ['\\', 'n']
  else if c = '\r' then ['\\', 'r']
  else if c = '\t' then ['\\', 't']
  else if c = '\x08' then ['\\', 'b']
  else if c = '\x0c' then ['\\', 'f']
  else if c.toNat < 0x20 then '\\' :: 'u' :: hex4 c.toNat
  else if c.toNat < 0x7f then [c]
  else if c.toNat ≤ 0xffff then '\\' :: 'u' :: hex4 c.toNat
  else
    let v := c.toNat - 0x10000
    ('\\' :: 'u' :: hex4 (0xd800 + v / 0x400)) ++ ('\\' :: 'u' :: hex4 (0xdc00 + v % 0x400))

/-- Python json.dumps on a string value. -/
def dumpJStr (s : String) : String :=
  String.mk ('"' :: s.data.flatMap escJsonChar ++ ['"'])

mutual

/-- Python json.dumps with its default separators. -/
def json_dumps : Json → String
  | .null => "null"
  | .bool b => if b then "true" else "false"
  | .num s => s
  | .str s => dumpJStr s
  | .arr items => "[" ++ dumpsArr items ++ "]"
  | .obj entries => "\x7b" ++ dumpsObj entries ++ "\x7d"

/-- Comma-joined array items. -/
def dumpsArr : List Json → String
  | [] => ""
  | [x] => json_dumps x
  | x :: y :: xs => json_dumps x ++ ", " ++ dumpsArr (y :: xs)

/-- Comma-joined object members. -/
def dumpsObj : List (String × Json) → String
  | [] => ""
  | [(k, v)] => dumpJStr k ++ ": " ++ json_dumps v
  | (k, v) :: kv :: kvs => dumpJStr k ++ ": " ++ json_dumps v ++ ", " ++ dumpsObj (kv :: kvs)

end

/-- Python len() on a JSON value: defined for str, list and dict, a
TypeError (none) otherwise. -/
def pyLen : Json → Option Nat
  | .str s => some s.length
  | .arr xs => some xs.length
  | .obj kvs => some kvs.length
  | _ => none

/-- Is the mantissa of a JSON number lexeme zero? -/
def numIsZero (s : String) : Bool :=
  (s.data.takeWhile (fun c => c ≠ 'e' ∧ c ≠ 'E')).all
    (fun c => c = '-' ∨ c = '+' ∨ c = '0' ∨ c = '.')

/-- Python truthiness of a JSON value. -/
def pyTruthy : Json → Bool
  | .null => false
  | .bool b => b
  | .num s => !numIsZero s
  | .str s => !s.isEmpty
  | .arr xs => !xs.isEmpty
  | .obj kvs => !kvs.isEmpty

/-
  Transcript data model (google.genai types as probed by main.py):
  a Part is one of Text / FunctionCall / FunctionResponse, an Event carries
  an optional Content holding a list of Parts.
-/

/-- One Part of an event's content, as a closed tagged union. -/
inductive Part where
  | text (s : String)
  | function_call (name : String) (id : String) (args : Json)
  | function_response (id : String) (name : String) (response : Json)

/-- types.Content: a role and a list of parts. -/
structure Content where
  role : String
  parts : List Part

/-- One transcript event as inspected by main.py: its invocation id, whether
it is a final response, and its optional content. -/
structure Event where
  invocation_id : String
  is_final : Bool
  content : Option Content

/-- Python exception classes raised by the embedded code. -/
inductive PyErr where
  | valueError
  | typeError
  | keyError
deriving DecidableEq

/-- safe_json_loads (main.py:36-48): raises ValueError on empty input,
strips a leading markdown fence by dropping the first and last lines, then
attempts json.loads; a parse failure is swallowed (the re-raise is commented
out) so the function falls through and returns None. -/
def safe_json_loads (text : String) : Except PyErr (Option Json) :=
  if pyStrip text = "" then .error .valueError
  else
    let t :=
      if "```".data.isPrefixOf text.data then
        pyStrip (String.mk (joinNL (((splitLines text.data).drop 1).dropLast)))
      else text
    .ok (json_loads t)

/-- basic_input_sanitize (main.py:189-192): strip, then collapse every
whitespace run to a single space.  The Bool flag records whether the
previous character was part of a whitespace run. -/
def collapseWsAux : List Char → Bool → List Char
  | [], _ => []
  | c :: rest, prevSpace =>
    if pyIsSpace c then
      if prevSpace then collapseWsAux rest true else ' ' :: collapseWsAux rest true
    else c :: collapseWsAux rest false

/-- basic_input_sanitize (main.py:189-192). -/
def basic_input_sanitize (topic : String) : String :=
  String.mk (collapseWsAux (pyStrip topic).data false)

def MAX_TOPIC_LENGTH : Nat := 200
def MIN_TOPIC_LENGTH : Nat := 3

/-- One character of the class of ALLOWED_TOPIC_RE (main.py:197), i.e.
[\w\s\-\:\,\.&\(\)'] — note that \w includes the underscore (ASCII
fragment of the unicode classes). -/
def allowedTopicChar (c : Char) : Bool :=
  c.isAlpha || c.isDigit || c = '_' || pyIsSpace c ||
    ['-', ':', ',', '.', '&', '(', ')', '\''].contains c

/-- re.match of a ^...$ pattern also succeeds when everything before one
trailing newline matches, so drop such a newline first. -/
def dropTrailingNewline (cs : List Char) : List Char :=
  if cs.getLast? = some '\n' then cs.dropLast else cs

/-- ALLOWED_TOPIC_RE.match (pattern ^[\w\s\-\:\,\.&\(\)']+$): the topic is
nonempty and every character is in the class.  (A trailing newline needs no
special case here because \s already contains it.) -/
def allowed_topic_match (topic : String) : Bool :=
  !topic.isEmpty && topic.data.all allowedTopicChar

/-- re.match of ALLOWED_EXPERIENCE_PATTERN = ^\d+ year(s)?$ (main.py:198). -/
def experience_match (s : String) : Bool :=
  let cs := dropTrailingNewline s.data
  let ds := cs.takeWhile Char.isDigit
  let rest := cs.dropWhile Char.isDigit
  !ds.isEmpty && (rest = " year".data || rest = " years".data)

/-- re.match of ^\d+$ applied to the duration (main.py:297). -/
def duration_digits_match (s : String) : Bool :=
  let cs := dropTrailingNewline s.data
  !cs.isEmpty && cs.all Char.isDigit

/-- BLOCKED_KEYWORDS (main.py:199-212).  The Python value is a set; only
membership of substrings is ever observed, so the order is irrelevant. -/
def BLOCKED_KEYWORDS : List String :=
  ["bomb", "gun", "how to make", "kill", "suicide", "child abuse",
   "porn", "sex", "hate speech", "terrorist", "attack", "assassinate"]

/-- contains_blocked_keyword (main.py:217-224). -/
def contains_blocked_keyword (text : String) : Bool :=
  BLOCKED_KEYWORDS.any (fun kw => containsSubstr (pyLower text) kw)

def msgTopicTooShort : String :=
  "Error: Too small for the lesson plan generator. Please provide a specific educational topic"
def msgTopicTooLong : String :=
  "Error: Topic too long (>200 reached).  Please shorten the topic"
def msgTopicBadChars : String :=
  "Error: topic contains disallowed characters. Please use simple text (letters, numbers, spaces and punctuation)."
def msgTopicBlocked : String :=
  "Error: the requested topic is not permitted for this educational tool."
def msgBadExperience : String :=
  "Error: invalid experience error format.  Please enter the experience in this format (1 year, 2 years etc)."
def msgBadDuration : String :=
  "Error invalid duration format. Please enter the duration in integer"

/-- The check cascade of lesson_before_model_callback (main.py:272-302) on
the three values read from the parsed prompt.  `.ok (some msg)` is the
guardrail rejection LlmResponse with that text, `.ok none` means proceed
with the model call, `.error` is an uncaught Python exception (len() of an
unsized value, or a regex applied to a non-string). -/
def guardrail_core (topic experience duration : Json) : Except PyErr (Option String) :=
  match pyLen topic with
  | none => .error .typeError
  | some lt =>
    if lt < MIN_TOPIC_LENGTH then .ok (some msgTopicTooShort)
    else if lt > MAX_TOPIC_LENGTH then .ok (some msgTopicTooLong)
    else
      match topic with
      | .str ts =>
        if !allowed_topic_match ts then .ok (some msgTopicBadChars)
        else if contains_blocked_keyword ts then .ok (some msgTopicBlocked)
        else
          match experience with
          | .str es =>
            if !experience_match es then .ok (some msgBadExperience)
            else
              match duration with
              | .str ds =>
                if !duration_digits_match ds then .ok (some msgBadDuration)
                else .ok none
              | _ => .error .typeError
          | _ => .error .typeError
      | _ => .error .typeError

/-- The guardrail cascade on an all-string record, the case exercised by the
lesson pipeline. -/
def lesson_guardrail (topic experience duration : String) : Except PyErr (Option String) :=
  guardrail_core (.str topic) (.str experience) (.str duration)

/-- lesson_before_model_callback (main.py:227-302) as a function of the
extracted prompt text: sanitize, json.loads (uncaught JSONDecodeError on
failure), read the three keys (uncaught TypeError on a non-object, KeyError
on a missing key), then run the guardrail cascade. -/
def lesson_before_model_callback (promptText : String) : Except PyErr (Option String) :=
  match json_loads (basic_input_sanitize promptText) with
  | none => .error .valueError
  | some j =>
    match j with
    | .obj kvs =>
      match jget kvs "topic" with
      | none => .error .keyError
      | some topic =>
        match jget kvs "learner_profile" with
        | none => .error .keyError
        | some experience =>
          match jget kvs "duration" with
          | none => .error .keyError
          | some duration => guardrail_core topic experience duration
    | _ => .error .typeError

/-- The re.search of r"```json\s*(.*?)```" with re.DOTALL (main.py:335)
followed by group(1).strip() and json.loads (main.py:337-339): take the text
after the first occurrence of "```json", skip whitespace, capture up to the
next "```", strip and parse.  none when there is no such fenced block or its
body is not valid JSON. -/
def fencedCandidate (stripped : String) : Option Json :=
  match afterFirst "```json".data stripped.data with
  | none => none
  | some rest =>
    match beforeFirst "```".data (rest.dropWhile pyIsSpace) with
    | none => none
    | some grp => json_loads (pyStrip (String.mk grp))

/-- Is a FunctionResponse payload a mapping with status == "approved"
(main.py:344-351)? -/
def respApproved : Json → Bool
  | .obj kvs =>
    match jget kvs "status" with
    | some (.str s) => s == "approved"
    | _ => false
  | _ => false

/-- The body of extract_latest_output's inner loop (main.py:324-351) acting
on the running pair (last_json, last_approved-as-Bool). -/
def extract_step (st : Option Json × Bool) (p : Part) : Option Json × Bool :=
  match p with
  | .text s =>
    let stripped := pyStrip s
    let st1 := if stripped = "APPROVED" then (st.1, true) else st
    match fencedCandidate stripped with
    | some parsed => (some parsed, st1.2)
    | none => st1
  | .function_response _ _ resp =>
    if respApproved resp then (st.1, true) else st
  | .function_call _ _ _ => st

/-- The final return of extract_latest_output (main.py:353-359). -/
def finalizeExtract (st : Option Json × Bool) : Option Json :=
  match st.1 with
  | some j => some j
  | none => if st.2 then some (.str "APPROVED") else none

/-- The body of extract_latest_output's outer loop (main.py:316-322): an
event without content, or with an empty part list, contributes nothing. -/
def extract_event_step (st : Option Json × Bool) (ev : Event) : Option Json × Bool :=
  match ev.content with
  | some c => c.parts.foldl extract_step st
  | none => st

/-- extract_latest_output (main.py:305-359). -/
def extract_latest_output (events : List Event) : Option Json :=
  finalizeExtract (events.foldl extract_event_step (none, false))

/-- The same traversal, additionally returning the list of events it walked
over (the imperative loop reads each event once and writes none back). -/
def extract_latest_output_run (events : List Event) : Option Json × List Event :=
  let stp := events.foldl
    (fun acc ev => (extract_event_step acc.1 ev, acc.2 ++ [ev]))
    ((none, false), [])
  (finalizeExtract stp.1, stp.2)

/-- The inner scan of check_for_approval (main.py:370-380): the id of the
first FunctionCall part named adk_request_confirmation. -/
def firstApproval : List Part → Option String
  | [] => none
  | p :: rest =>
    match p with
    | .function_call name id _ =>
      if name = "adk_request_confirmation" then some id else firstApproval rest
    | _ => firstApproval rest

/-- check_for_approval (main.py:362-381): the pair (approval_id,
invocation_id) from the first confirmation-request FunctionCall, none when
there is none. -/
def check_for_approval : List Event → Option (String × String)
  | [] => none
  | ev :: rest =>
    match ev.content with
    | some c =>
      match firstApproval c.parts with
      | some aid => some (aid, ev.invocation_id)
      | none => check_for_approval rest
    | none => check_for_approval rest

/-- create_approval_response (main.py:393-408). -/
def create_approval_response (approval_id : String) (confirmed : Bool)
    (feedback : String) : Content :=
  let confirmation_response :=
    Part.function_response approval_id "adk_request_confirmation"
      (.obj [("confirmed", .bool confirmed)])
  let parts :=
    if feedback ≠ "" then
      [confirmation_response, Part.text (json_dumps (.obj [("human_input", .str feedback)]))]
    else [confirmation_response]
  ⟨"user", parts⟩

/-- The confirmation object attached to a ToolContext once the human has
decided. -/
structure ToolConfirmation where
  confirmed : Bool

/-- The slice of the ADK ToolContext observed or mutated by the tools of
main.py: the agent name, the actions.escalate flag, the optional pending
confirmation, the user content of the resume message, and the confirmation
request recorded by request_confirmation. -/
structure ToolContext where
  agent_name : String
  escalate : Bool
  tool_confirmation : Option ToolConfirmation
  user_content : Option Content
  requested : Option (String × Json)

/-- exit_inner_loop (main.py:100-108): returns the approved response and
touches nothing on the context. -/
def exit_inner_loop (tool_context : ToolContext) : ToolContext × Json :=
  (tool_context,
   .obj [("status", .str "approved"),
         ("message", .str "Lesson/content plan approved. Exiting refinement loop.")])

/-- exit_loop (main.py:111-120): sets tool_context.actions.escalate and
returns the approved response. -/
def exit_loop (tool_context : ToolContext) : ToolContext × Json :=
  ({ tool_context with escalate := true },
   .obj [("status", .str "approved"),
         ("message", .str "Lesson/content plan approved. Exiting refinement loop.")])

/-- The parts of the context's user content, [] when there is none
(getattr(None, "parts", []) in the source). -/
def userParts (ctx : ToolContext) : List Part :=
  match ctx.user_content with
  | some c => c.parts
  | none => []

/-- The feedback scan of human_feedback_input (main.py:156-167): the value
under "human_input" of the first nonempty Text part that parses as a JSON
object with that key; every exception inside the loop body is swallowed and
the loop continues. -/
def scanFeedback : List Part → Option Json
  | [] => none
  | .text s :: rest =>
    if s ≠ "" then
      match json_loads s with
      | some (.obj kvs) =>
        match jget kvs "human_input" with
        | some v => some v
        | none => scanFeedback rest
      | _ => scanFeedback rest
    else scanFeedback rest
  | _ :: rest => scanFeedback rest

/-- human_feedback_input (main.py:123-172). -/
def human_feedback_input (lesson_plans : List String) (tool_context : ToolContext)
    (human_input : Option String) : ToolContext × Json :=
  match tool_context.tool_confirmation with
  | none =>
    ({ tool_context with
        requested := some
          ("Please review and approve the lesson plans:\n " ++
             String.intercalate ",\n" lesson_plans,
           .obj [("lesson_plans", .arr (lesson_plans.map .str))]) },
     .obj [("status", .str "pending"),
           ("message", .str ("Request for lesson plan approval is pending, the lesson plans:\n " ++
              String.intercalate ",\n" lesson_plans))])
  | some tc =>
    let feedback0 := human_input.getD ""
    let feedback : Json :=
      if feedback0 = "" then
        match scanFeedback (userParts tool_context) with
        | some v => v
        | none => .str ""
      else .str feedback0
    if tc.confirmed then
      (tool_context, .obj [("status", .str "approved"), ("feedback", feedback)])
    else
      (tool_context,
       .obj [("status", .str "rejected"),
             ("feedback", if pyTruthy feedback then feedback else .str "rejected")])

/-- Is one element of the final plan a string starting with "Day "
(main.py:972-975)? -/
def isDayStringJson : Json → Bool
  | .str s => "Day ".data.isPrefixOf s.data
  | _ => false

/-- One candidate of the final extraction loop of main (main.py:969-978):
safe_json_loads of the part text, accepted only when it is a list whose
elements are all strings starting with "Day "; the bare except swallows the
ValueError of an empty text. -/
def acceptPlan (text : String) : Option (List Json) :=
  match safe_json_loads text with
  | .ok (some (.arr xs)) => if xs.all isDayStringJson then some xs else none
  | _ => none

/-- The body of the inner part loop of main's final extraction
(main.py:968-978): a nonempty text part that is an accepted candidate
replaces final_output, everything else leaves it unchanged. -/
def planPartStep (acc : List Json) (p : Part) : List Json :=
  match p with
  | .text s =>
    if s ≠ "" then
      match acceptPlan s with
      | some xs => xs
      | none => acc
    else acc
  | _ => acc

/-- The body of the outer event loop of main's final extraction
(main.py:965-978). -/
def planEventStep (acc : List Json) (ev : Event) : List Json :=
  if ev.is_final then
    match ev.content with
    | some c => c.parts.foldl planPartStep acc
    | none => acc
  else acc

/-- The final extraction loop of main (main.py:963-978): walk the final
response events, re-assigning final_output at every accepted candidate;
final_output starts as the empty list. -/
def lessonFinalExtract (events : List Event) : List Json :=
  events.foldl planEventStep []

/-
  Specification-side definitions.  These render the spec's description of
  the algorithms (candidate sets, fallback signals, well-formedness of the
  guardrail's input, the character class the spec claims) and are compared
  with the embedded source functions by the theorems below.
-/

/-- The JSON candidate a single Part contributes to the Output Extractor:
for a Text part, the parsed body of its first ```json fence. -/
def partCandidate : Part → Option Json
  | .text s => fencedCandidate (pyStrip s)
  | _ => none

/-- Does a single Part carry the APPROVED fallback signal: a Text equal to
"APPROVED" after trimming, or a FunctionResponse whose payload is a mapping
with status == "approved". -/
def partSignal : Part → Bool
  | .text s => pyStrip s == "APPROVED"
  | .function_response _ _ resp => respApproved resp
  | _ => false

/-- The parts of one event, [] when it has no content. -/
def eventParts (ev : Event) : List Part :=
  match ev.content with
  | some c => c.parts
  | none => []

/-- All parts of a transcript in event order. -/
def transcriptParts (events : List Event) : List Part :=
  (events.map eventParts).flatten

/-- All JSON candidates of a transcript in order. -/
def jsonCandidates (events : List Event) : List Json :=
  (transcriptParts events).filterMap partCandidate

/-- Was the APPROVED fallback signal ever seen in the transcript? -/
def sawApprovalSignal (events : List Event) : Bool :=
  (transcriptParts events).any partSignal

/-- The character class the spec claims for topics: letters, digits,
whitespace and the punctuation set - : , . & ( ) ' — without underscore. -/
def claimedTopicChar (c : Char) : Bool :=
  c.isAlpha || c.isDigit || pyIsSpace c ||
    ['-', ':', ',', '.', '&', '(', ')', '\''].contains c

/-- A prompt text the guardrail callback can process without raising:
after sanitizing it parses as a JSON object with the three expected keys. -/
def wellFormedPrompt (s : String) : Prop :=
  ∃ kvs, json_loads (basic_input_sanitize s) = some (.obj kvs) ∧
    (jget kvs "topic").isSome ∧ (jget kvs "learner_profile").isSome ∧
    (jget kvs "duration").isSome

/-- The transcript contains a FunctionCall part named
adk_request_confirmation. -/
def hasApprovalCall (events : List Event) : Prop :=
  ∃ ev ∈ events, ∃ c, ev.content = some c ∧
    ∃ p ∈ c.parts, ∃ aid args, p = Part.function_call "adk_request_confirmation" aid args

/-- The nonempty text of a Part, as selected by main's final extraction
loop. -/
def textSel : Part → Option String
  | .text s => if s ≠ "" then some s else none
  | _ => none

/-- The nonempty texts of final-response events, in order. -/
def finalTexts (events : List Event) : List String :=
  (events.map (fun ev => if ev.is_final then (eventParts ev).filterMap textSel else [])).flatten

/-- The feedback value human_feedback_input ends up using: the nonempty
human_input argument, otherwise the value scanned from the user content. -/
def effectiveFeedback (ctx : ToolContext) (human_input : Option String) : Json :=
  if human_input.getD "" = "" then
    match scanFeedback (userParts ctx) with
    | some v => v
    | none => .str ""
  else .str (human_input.getD "")

/-
  Helper lemmas.
-/

/-- One step of the extractor loop keeps the part's candidate if it has one
and accumulates its fallback signal. -/
theorem extract_step_eq (st : Option Json × Bool) (p : Part) :
    extract_step st p = ((partCandidate p).or st.1, st.2 || partSignal p) := by
  cases p with
  | text s =>
    simp only [extract_step, partCandidate, partSignal]
    by_cases h : pyStrip s = "APPROVED"
    · cases hc : fencedCandidate (pyStrip s) <;> simp [h, hc, Option.or]
    · have h2 : (pyStrip s == "APPROVED") = false := by simp [h]
      cases hc : fencedCandidate (pyStrip s) <;> simp [h, h2, hc, Option.or]
  | function_call name id args => simp [extract_step, partCandidate, partSignal, Option.or]
  | function_response id name resp =>
    simp only [extract_step, partCandidate, partSignal]
    by_cases h : respApproved resp <;> simp [h, Option.or]

/-- getLast? through a cons, phrased with Option.or. -/
theorem orLast_cons {α : Type} (x : α) (l : List α) (a : Option α) :
    ((x :: l).getLast?).or a = (l.getLast?).or (some x) := by
  induction l generalizing x a with
  | nil => rfl
  | cons y ys ih => rw [List.getLast?_cons_cons, ih, ih]

/-- getLast? through an append, phrased with Option.or. -/
theorem orLast_append {α : Type} (xs ys : List α) (a : Option α) :
    ((xs ++ ys).getLast?).or a = (ys.getLast?).or ((xs.getLast?).or a) := by
  induction xs generalizing a with
  | nil => simp
  | cons x xs ih => rw [List.cons_append, orLast_cons, ih, orLast_cons]

/-- Folding the extractor step over a part list keeps the last candidate and
the disjunction of the signals. -/
theorem foldl_extract_parts (ps : List Part) (st : Option Json × Bool) :
    ps.foldl extract_step st =
      (((ps.filterMap partCandidate).getLast?).or st.1, st.2 || ps.any partSignal) := by
  induction ps generalizing st with
  | nil => simp
  | cons p ps ih =>
    rw [List.foldl_cons, extract_step_eq, ih]
    cases hc : partCandidate p with
    | none => simp [List.filterMap_cons, hc, Bool.or_assoc]
    | some j => simp [List.filterMap_cons, hc, Bool.or_assoc, orLast_cons]

/-- One event contributes its parts' candidates and signals. -/
theorem extract_event_step_eq (st : Option Json × Bool) (ev : Event) :
    extract_event_step st ev =
      ((((eventParts ev).filterMap partCandidate).getLast?).or st.1,
       st.2 || (eventParts ev).any partSignal) := by
  cases hc : ev.content with
  | none => simp [extract_event_step, eventParts, hc]
  | some c => simp [extract_event_step, eventParts, hc, foldl_extract_parts]

/-- Folding over the whole transcript keeps the last JSON candidate and
whether any fallback signal was seen. -/
theorem foldl_extract_events (evs : List Event) (st : Option Json × Bool) :
    evs.foldl extract_event_step st =
      (((jsonCandidates evs).getLast?).or st.1, st.2 || sawApprovalSignal evs) := by
  induction evs generalizing st with
  | nil => simp [jsonCandidates, transcriptParts, sawApprovalSignal]
  | cons ev evs ih =>
    rw [List.foldl_cons, extract_event_step_eq, ih]
    have htp : transcriptParts (ev :: evs) = eventParts ev ++ transcriptParts evs := by
      simp [transcriptParts]
    simp [jsonCandidates, sawApprovalSignal, htp, List.filterMap_append, List.any_append,
      orLast_append, Bool.or_assoc, Option.or_assoc]

/-- Characterization of extract_latest_output: the most recent fenced JSON
candidate, else the APPROVED marker when a fallback signal was seen, else
none. -/
theorem extract_latest_output_spec (events : List Event) :
    extract_latest_output events =
      match (jsonCandidates events).getLast? with
      | some j => some j
      | none => if sawApprovalSignal events then some (.str "APPROVED") else none := by
  unfold extract_latest_output
  rw [foldl_extract_events]
  cases h : (jsonCandidates events).getLast? <;> simp [finalizeExtract, Option.or]

/-
  Claim theorems.
-/

/-- Concrete transcript event whose only text is plain unfenced JSON. -/
def c1_plain_event : Event :=
  ⟨"inv0", true, some ⟨"model", [.text "[1, 2]"]⟩⟩

/-- C1 (counterexample): the claim's candidate rule does not hold of the
code.  The text "[1, 2]" parses as valid JSON after stripping whitespace
(and it contains no markdown fence to strip), so under the claim it is a
candidate — the most recent one — and the final result would be the parsed
array; extract_latest_output returns none on this transcript because it only
considers ```json fenced blocks as candidates. -/
theorem c1_plain_json_not_candidate :
    json_loads (pyStrip "[1, 2]") = some (.arr [.num "1", .num "2"]) ∧
    extract_latest_output [c1_plain_event] = none :=
  ⟨rfl, rfl⟩

/-- C1 (amended): for every transcript, the Output Extractor treats as a
candidate every Text part whose first ```json fenced block parses as valid
JSON, and its final result is the most recent such candidate when at least
one exists; otherwise the literal marker "APPROVED" if a fallback signal (a
Text equal to "APPROVED" after trimming, or a FunctionResponse mapping with
status == "approved") was ever seen; otherwise no result (None). -/
theorem c1_extraction_rule (events : List Event) :
    extract_latest_output events =
      match (jsonCandidates events).getLast? with
      | some j => some j
      | none => if sawApprovalSignal events then some (.str "APPROVED") else none :=
  extract_latest_output_spec events

/-- The spec's tie-break transcript: a non-JSON text, then a fenced JSON
lesson plan, then a trailing APPROVED marker. -/
def c5_example_events : List Event :=
  [⟨"inv1", true, some ⟨"model", [.text "not json"]⟩⟩,
   ⟨"inv1", true, some ⟨"model", [.text "```json\n[\"Day 1: X\",\"Day 2: Y\"]\n```"]⟩⟩,
   ⟨"inv1", true, some ⟨"model", [.text "APPROVED"]⟩⟩]

/-- C5: JSON candidates take priority over the APPROVED fallback regardless
of transcript order: whenever the transcript has a most recent JSON
candidate, the extractor returns it, no matter how many APPROVED markers
occur, in particular at later events; and the spec's concrete transcript
extracts the fenced lesson plan, not the trailing APPROVED. -/
theorem c5_json_priority :
    (∀ (events : List Event) (j : Json),
      (jsonCandidates events).getLast? = some j →
      extract_latest_output events = some j) ∧
    extract_latest_output c5_example_events =
      some (.arr [.str "Day 1: X", .str "Day 2: Y"]) := by
  constructor
  · intro events j h
    rw [extract_latest_output_spec, h]
  · rfl

/-- Witness for C5 at the concrete tie-break transcript. -/
theorem c5_json_priority_witness :
    extract_latest_output c5_example_events =
      some (.arr [.str "Day 1: X", .str "Day 2: Y"]) :=
  c5_json_priority.1 c5_example_events (.arr [.str "Day 1: X", .str "Day 2: Y"]) rfl

/-- The running fold of extract_latest_output_run only appends the traversed
events to the seen-list. -/
theorem run_fold (evs : List Event) (st : Option Json × Bool) (seen : List Event) :
    evs.foldl (fun acc ev => (extract_event_step acc.1 ev, acc.2 ++ [ev])) (st, seen) =
      (evs.foldl extract_event_step st, seen ++ evs) := by
  induction evs generalizing st seen with
  | nil => simp
  | cons ev evs ih => simp [List.foldl_cons, ih]

/-- C9: the extractor is a pure, deterministic function of its transcript:
the traversal hands the event list back unchanged, and running the extractor
again on the returned events yields the same result. -/
theorem c9_extractor_pure (events : List Event) :
    extract_latest_output_run events = (extract_latest_output events, events) ∧
    (extract_latest_output_run ((extract_latest_output_run events).2)).1 =
      (extract_latest_output_run events).1 := by
  have h : extract_latest_output_run events = (extract_latest_output events, events) := by
    simp only [extract_latest_output_run, extract_latest_output, run_fold]
    simp
  exact ⟨h, by simp [h]⟩

/-- The guardrail cascade on strings, written as one if-chain (definitional
unfolding of guardrail_core at string arguments). -/
theorem lesson_guardrail_eq (t e d : String) :
    lesson_guardrail t e d =
      if t.length < 3 then .ok (some msgTopicTooShort)
      else if t.length > 200 then .ok (some msgTopicTooLong)
      else if !allowed_topic_match t then .ok (some msgTopicBadChars)
      else if contains_blocked_keyword t then .ok (some msgTopicBlocked)
      else if !experience_match e then .ok (some msgBadExperience)
      else if !duration_digits_match d then .ok (some msgBadDuration)
      else .ok none := rfl

/-- C2: the guardrail checks run in the fixed order length-lower-bound,
length-upper-bound (both inclusive), character class, blocked keywords,
experience pattern, duration digits; the first failing check yields its
specific message, a record passing every check proceeds (None); topic "ab"
is rejected for length, the record (valid topic, 5 years, 10) passes, and
any topic containing "bomb" in any letter case is rejected. -/
theorem c2_guardrail_order :
    (∀ t e d : String,
      (t.length < 3 → lesson_guardrail t e d = .ok (some msgTopicTooShort)) ∧
      (3 ≤ t.length → 200 < t.length → lesson_guardrail t e d = .ok (some msgTopicTooLong)) ∧
      (3 ≤ t.length → t.length ≤ 200 → allowed_topic_match t = false →
        lesson_guardrail t e d = .ok (some msgTopicBadChars)) ∧
      (3 ≤ t.length → t.length ≤ 200 → allowed_topic_match t = true →
        contains_blocked_keyword t = true →
        lesson_guardrail t e d = .ok (some msgTopicBlocked)) ∧
      (3 ≤ t.length → t.length ≤ 200 → allowed_topic_match t = true →
        contains_blocked_keyword t = false → experience_match e = false →
        lesson_guardrail t e d = .ok (some msgBadExperience)) ∧
      (3 ≤ t.length → t.length ≤ 200 → allowed_topic_match t = true →
        contains_blocked_keyword t = false → experience_match e = true →
        duration_digits_match d = false →
        lesson_guardrail t e d = .ok (some msgBadDuration)) ∧
      (lesson_guardrail t e d = .ok none ↔
        3 ≤ t.length ∧ t.length ≤ 200 ∧ allowed_topic_match t = true ∧
        contains_blocked_keyword t = false ∧ experience_match e = true ∧
        duration_digits_match d = true)) ∧
    (∀ e d : String, lesson_guardrail "ab" e d = .ok (some msgTopicTooShort)) ∧
    lesson_guardrail "valid topic" "5 years" "10" = .ok none ∧
    (∀ t e d : String, containsSubstr (pyLower t) "bomb" = true →
      lesson_guardrail t e d ≠ .ok none) := by
  refine ⟨fun t e d => ?_, fun e d => rfl, rfl, fun t e d hb hcontra => ?_⟩
  · rw [lesson_guardrail_eq]
    refine ⟨fun h1 => by rw [if_pos h1],
      fun h1 h2 => by rw [if_neg (by omega), if_pos h2],
      fun h1 h2 h3 => by rw [if_neg (by omega), if_neg (by omega), if_pos (by simp [h3])],
      fun h1 h2 h3 h4 => by
        rw [if_neg (by omega), if_neg (by omega), if_neg (by simp [h3]), if_pos h4],
      fun h1 h2 h3 h4 h5 => by
        rw [if_neg (by omega), if_neg (by omega), if_neg (by simp [h3]), if_neg (by simp [h4]),
          if_pos (by simp [h5])],
      fun h1 h2 h3 h4 h5 h6 => by
        rw [if_neg (by omega), if_neg (by omega), if_neg (by simp [h3]), if_neg (by simp [h4]),
          if_neg (by simp [h5]), if_pos (by simp [h6])],
      ?_⟩
    constructor
    · intro h
      by_cases h1 : t.length < 3
      · rw [if_pos h1] at h; exact absurd h (by simp)
      rw [if_neg h1] at h
      by_cases h2 : t.length > 200
      · rw [if_pos h2] at h; exact absurd h (by simp)
      rw [if_neg h2] at h
      by_cases h3 : (!allowed_topic_match t) = true
      · rw [if_pos h3] at h; exact absurd h (by simp)
      rw [if_neg h3] at h
      by_cases h4 : contains_blocked_keyword t = true
      · rw [if_pos h4] at h; exact absurd h (by simp)
      rw [if_neg h4] at h
      by_cases h5 : (!experience_match e) = true
      · rw [if_pos h5] at h; exact absurd h (by simp)
      rw [if_neg h5] at h
      by_cases h6 : (!duration_digits_match d) = true
      · rw [if_pos h6] at h; exact absurd h (by simp)
      refine ⟨by omega, by omega, ?_, ?_, ?_, ?_⟩ <;> simp_all
    · rintro ⟨hb1, hb2, hb3, hb4, hb5, hb6⟩
      rw [if_neg (by omega), if_neg (by omega), if_neg (by simp [hb3]),
        if_neg (by simp [hb4]), if_neg (by simp [hb5]), if_neg (by simp [hb6])]
  · rw [lesson_guardrail_eq] at hcontra
    have hkw : contains_blocked_keyword t = true := by
      simp [contains_blocked_keyword, BLOCKED_KEYWORDS, List.any_cons, hb]
    split_ifs at hcontra <;> simp_all

/-- Witness for C2: a topic containing "bomb" never reaches the model. -/
theorem c2_guardrail_order_witness :
    lesson_guardrail "price of a bomb" "5 years" "10" ≠ .ok none :=
  c2_guardrail_order.2.2.2 "price of a bomb" "5 years" "10" rfl

/-- C6 (counterexample): the code's character class comes from \w and
accepts the underscore, which the claim's list (letters, digits, whitespace
and - : , . & ( ) ') excludes: "a_b" contains an underscore, passes the
character-class check, and indeed passes the whole guardrail, while under
the claim it would have to be rejected with the disallowed-characters
message. -/
theorem c6_underscore_counterexample :
    allowed_topic_match "a_b" = true ∧ claimedTopicChar '_' = false ∧
      '_' ∈ "a_b".data ∧ lesson_guardrail "a_b" "1 year" "7" = .ok none :=
  ⟨rfl, rfl, by decide, rfl⟩

/-- C6 (amended): a nonempty topic passes the guardrail's character-class
check if and only if every character is a word character (letter, digit or
underscore), whitespace, or one of the punctuation characters
- : , . & ( ) '. -/
theorem c6_charclass_amended (t : String) (h : t ≠ "") :
    allowed_topic_match t = true ↔ ∀ c ∈ t.data, allowedTopicChar c = true := by
  have hne : t.isEmpty = false := by
    rw [Bool.eq_false_iff]
    intro hcontra
    exact h ((String.isEmpty_iff t).mp hcontra)
  simp [allowed_topic_match, hne, List.all_eq_true]

/-- Witness for C6 at the underscore topic. -/
theorem c6_charclass_amended_witness :
    allowed_topic_match "a_b" = true ↔ ∀ c ∈ "a_b".data, allowedTopicChar c = true :=
  c6_charclass_amended "a_b" (by decide)

/-- C10: the guardrail callback returns at all (a rejection or a
pass-through) only when the extracted prompt text, after sanitizing, parses
as a JSON object carrying the keys topic, learner_profile and duration; on
every other prompt it raises an uncaught exception from the JSON parse or
the key lookup — on plain non-JSON text a JSONDecodeError (ValueError). -/
theorem c10_malformed_prompt_raises :
    (∀ (s : String) (r : Option String),
      lesson_before_model_callback s = .ok r → wellFormedPrompt s) ∧
    (∀ s : String, ¬ wellFormedPrompt s →
      ∃ e, lesson_before_model_callback s = .error e) ∧
    lesson_before_model_callback "plain non-JSON text" = .error .valueError := by
  have h1 : ∀ (s : String) (r : Option String),
      lesson_before_model_callback s = .ok r → wellFormedPrompt s := by
    intro s r h
    unfold lesson_before_model_callback at h
    split at h
    · exact absurd h (by simp)
    next j hj =>
      split at h
      next kvs =>
        split at h
        · exact absurd h (by simp)
        next topic htop =>
          split at h
          · exact absurd h (by simp)
          next exp hexp =>
            split at h
            · exact absurd h (by simp)
            next dur hdur =>
              exact ⟨kvs, hj, by simp [htop], by simp [hexp], by simp [hdur]⟩
      · exact absurd h (by simp)
  refine ⟨h1, ?_, rfl⟩
  intro s hnw
  cases hcb : lesson_before_model_callback s with
  | error e => exact ⟨e, rfl⟩
  | ok r => exact absurd (h1 s r hcb) hnw

/-- Witness for C10: plain text that is not JSON makes the callback raise. -/
theorem c10_malformed_prompt_raises_witness :
    ∃ e, lesson_before_model_callback "hello" = .error e :=
  c10_malformed_prompt_raises.2.1 "hello" (fun hw => by
    obtain ⟨kvs, hk, -, -, -⟩ := hw
    have hnone : json_loads (basic_input_sanitize "hello") = none := rfl
    rw [hnone] at hk
    exact Option.noConfusion hk)

/-- firstApproval finds nothing iff no part is a confirmation-request
FunctionCall. -/
theorem firstApproval_none_iff (ps : List Part) :
    firstApproval ps = none ↔
      ∀ p ∈ ps, ∀ aid args, p ≠ Part.function_call "adk_request_confirmation" aid args := by
  induction ps with
  | nil => simp [firstApproval]
  | cons p ps ih =>
    cases p with
    | text s => simp [firstApproval, ih]
    | function_call name id args =>
      by_cases h : name = "adk_request_confirmation"
      · subst h
        simp only [firstApproval, if_pos rfl]
        constructor
        · intro hcontra; cases hcontra
        · intro hall
          exact absurd rfl (hall _ (List.mem_cons_self _ _) id args)
      · simp [firstApproval, h, ih]
    | function_response id name resp => simp [firstApproval, ih]

/-- When firstApproval finds an id, it is the id of a confirmation-request
part of the list. -/
theorem firstApproval_some (ps : List Part) (aid : String) :
    firstApproval ps = some aid →
      ∃ p ∈ ps, ∃ args, p = Part.function_call "adk_request_confirmation" aid args := by
  induction ps with
  | nil => intro h; cases h
  | cons p ps ih =>
    cases p with
    | text s =>
      intro h
      obtain ⟨q, hq, hargs⟩ := ih (by simpa [firstApproval] using h)
      exact ⟨q, List.mem_cons_of_mem _ hq, hargs⟩
    | function_call name id args =>
      by_cases hn : name = "adk_request_confirmation"
      · subst hn
        intro h
        simp only [firstApproval, if_true, eq_self_iff_true, Option.some.injEq] at h
        subst h
        exact ⟨_, List.mem_cons_self _ _, args, rfl⟩
      · intro h
        obtain ⟨q, hq, hargs⟩ := ih (by simpa [firstApproval, hn] using h)
        exact ⟨q, List.mem_cons_of_mem _ hq, hargs⟩
    | function_response id name resp =>
      intro h
      obtain ⟨q, hq, hargs⟩ := ih (by simpa [firstApproval] using h)
      exact ⟨q, List.mem_cons_of_mem _ hq, hargs⟩

/-- check_for_approval finds nothing iff the transcript has no
confirmation-request call. -/
theorem check_for_approval_none_iff (evs : List Event) :
    check_for_approval evs = none ↔ ¬ hasApprovalCall evs := by
  induction evs with
  | nil => simp [check_for_approval, hasApprovalCall]
  | cons ev evs ih =>
    cases hc : ev.content with
    | none =>
      have hiff : hasApprovalCall (ev :: evs) ↔ hasApprovalCall evs := by
        constructor
        · rintro ⟨e, he, c2, hc2, p, hp, aid, args, hpe⟩
          rcases List.mem_cons.mp he with rfl | hmem
          · rw [hc] at hc2; cases hc2
          · exact ⟨e, hmem, c2, hc2, p, hp, aid, args, hpe⟩
        · rintro ⟨e, he, c2, hc2, p, hp, aid, args, hpe⟩
          exact ⟨e, List.mem_cons_of_mem _ he, c2, hc2, p, hp, aid, args, hpe⟩
      rw [show check_for_approval (ev :: evs) = check_for_approval evs from by
        simp [check_for_approval, hc], ih, hiff]
    | some c =>
      cases hfa : firstApproval c.parts with
      | some aid =>
        have hhas : hasApprovalCall (ev :: evs) := by
          obtain ⟨p, hp, args, hpe⟩ := firstApproval_some c.parts aid hfa
          exact ⟨ev, List.mem_cons_self _ _, c, hc, p, hp, aid, args, hpe⟩
        simp [check_for_approval, hc, hfa, hhas]
      | none =>
        have hhead := (firstApproval_none_iff c.parts).mp hfa
        have hiff : hasApprovalCall (ev :: evs) ↔ hasApprovalCall evs := by
          constructor
          · rintro ⟨e, he, c2, hc2, p, hp, aid, args, hpe⟩
            rcases List.mem_cons.mp he with rfl | hmem
            · rw [hc] at hc2
              injection hc2 with hceq
              subst hceq
              exact absurd hpe (hhead p hp aid args)
            · exact ⟨e, hmem, c2, hc2, p, hp, aid, args, hpe⟩
          · rintro ⟨e, he, c2, hc2, p, hp, aid, args, hpe⟩
            exact ⟨e, List.mem_cons_of_mem _ he, c2, hc2, p, hp, aid, args, hpe⟩
        rw [show check_for_approval (ev :: evs) = check_for_approval evs from by
          simp [check_for_approval, hc, hfa], ih, hiff]

/-- When check_for_approval returns a pair, it is the id of a
confirmation-request call of an event together with that event's invocation
id. -/
theorem check_for_approval_some (evs : List Event) (aid inv : String) :
    check_for_approval evs = some (aid, inv) →
      ∃ ev ∈ evs, ev.invocation_id = inv ∧ ∃ c, ev.content = some c ∧
        ∃ p ∈ c.parts, ∃ args, p = Part.function_call "adk_request_confirmation" aid args := by
  induction evs with
  | nil => intro h; cases h
  | cons ev evs ih =>
    cases hc : ev.content with
    | none =>
      intro h
      obtain ⟨e, he, hrest⟩ := ih (by simpa [check_for_approval, hc] using h)
      exact ⟨e, List.mem_cons_of_mem _ he, hrest⟩
    | some c =>
      cases hfa : firstApproval c.parts with
      | some aid2 =>
        intro h
        have hpair : aid2 = aid ∧ ev.invocation_id = inv := by
          simpa [check_for_approval, hc, hfa, Prod.ext_iff] using h
        obtain ⟨p, hp, args, hpe⟩ := firstApproval_some c.parts aid2 hfa
        exact ⟨ev, List.mem_cons_self _ _, hpair.2, c, hc, p, hp, args, by
          rw [hpe, hpair.1]⟩
      | none =>
        intro h
        obtain ⟨e, he, hrest⟩ := ih (by simpa [check_for_approval, hc, hfa] using h)
        exact ⟨e, List.mem_cons_of_mem _ he, hrest⟩

/-- C3: check_for_approval returns the (approval_id, invocation_id) of a
FunctionCall named adk_request_confirmation when the scanned events contain
one and None when they do not; create_approval_response builds a user-role
Content whose first part is a FunctionResponse with that call id, the name
adk_request_confirmation and response confirmed-bool, and which contains a
Text part carrying the serialized JSON with key human_input iff the
feedback string is nonempty. -/
theorem c3_approval_roundtrip :
    (∀ evs : List Event, check_for_approval evs = none ↔ ¬ hasApprovalCall evs) ∧
    (∀ (evs : List Event) (aid inv : String),
      check_for_approval evs = some (aid, inv) →
      ∃ ev ∈ evs, ev.invocation_id = inv ∧ ∃ c, ev.content = some c ∧
        ∃ p ∈ c.parts, ∃ args, p = Part.function_call "adk_request_confirmation" aid args) ∧
    (∀ (aid : String) (conf : Bool) (fb : String),
      (create_approval_response aid conf fb).role = "user" ∧
      (create_approval_response aid conf fb).parts.head? =
        some (Part.function_response aid "adk_request_confirmation"
          (.obj [("confirmed", .bool conf)])) ∧
      ((∃ s, Part.text s ∈ (create_approval_response aid conf fb).parts) ↔ fb ≠ "") ∧
      (fb ≠ "" →
        Part.text (json_dumps (.obj [("human_input", .str fb)])) ∈
          (create_approval_response aid conf fb).parts)) := by
  refine ⟨check_for_approval_none_iff, check_for_approval_some, fun aid conf fb => ?_⟩
  by_cases hfb : fb = ""
  · subst hfb
    exact ⟨rfl, rfl, by simp [create_approval_response], by simp⟩
  · refine ⟨rfl, ?_, ?_, fun hne => ?_⟩
    · simp [create_approval_response, hfb]
    · simp only [create_approval_response, if_pos hfb]
      simp [hfb]
    · simp [create_approval_response, hfb]

/-- A transcript with one confirmation-request call, for the C3 witness. -/
def c3_example_events : List Event :=
  [⟨"inv7", false, some ⟨"model", [.function_call "adk_request_confirmation" "call42" .null]⟩⟩]

/-- Witness for C3 at a concrete transcript. -/
theorem c3_approval_roundtrip_witness :
    ∃ ev ∈ c3_example_events, ev.invocation_id = "inv7" ∧ ∃ c, ev.content = some c ∧
      ∃ p ∈ c.parts, ∃ args, p = Part.function_call "adk_request_confirmation" "call42" args :=
  c3_approval_roundtrip.2.1 c3_example_events "call42" "inv7" rfl

/-- The hint of the confirmation request human_feedback_input emits. -/
def pendingHint (plans : List String) : String :=
  "Please review and approve the lesson plans:\n " ++ String.intercalate ",\n" plans

/-- The payload of the confirmation request: the lesson plans. -/
def pendingPayload (plans : List String) : Json :=
  .obj [("lesson_plans", .arr (plans.map .str))]

/-- The pending result human_feedback_input returns while waiting. -/
def pendingResult (plans : List String) : Json :=
  .obj [("status", .str "pending"),
        ("message", .str ("Request for lesson plan approval is pending, the lesson plans:\n " ++
           String.intercalate ",\n" plans))]

/-- C4: without a pending confirmation, human_feedback_input records a
confirmation request carrying the human-readable hint and a payload holding
the lesson plans and returns the pending result; with a confirmation it
leaves the context untouched and returns approved/rejected according to the
confirmed flag, with the feedback taken from the human_input argument or,
when that is empty, scanned from a user-content Text part whose JSON object
contains the key human_input, a rejection with falsy feedback defaulting to
"rejected". -/
theorem c4_human_feedback :
    (∀ (plans : List String) (ctx : ToolContext) (hi : Option String),
      (ctx.tool_confirmation = none →
        human_feedback_input plans ctx hi =
          ({ ctx with requested := some (pendingHint plans, pendingPayload plans) },
           pendingResult plans)) ∧
      (∀ tc, ctx.tool_confirmation = some tc →
        (human_feedback_input plans ctx hi).1 = ctx ∧
        (human_feedback_input plans ctx hi).2 =
          (if tc.confirmed then
            .obj [("status", .str "approved"), ("feedback", effectiveFeedback ctx hi)]
           else
            .obj [("status", .str "rejected"),
                  ("feedback",
                    if pyTruthy (effectiveFeedback ctx hi) then effectiveFeedback ctx hi
                    else .str "rejected")]))) ∧
    (∀ (ps : List Part) (v : Json), scanFeedback ps = some v →
      ∃ s kvs, Part.text s ∈ ps ∧ json_loads s = some (.obj kvs) ∧
        jget kvs "human_input" = some v) := by
  constructor
  · intro plans ctx hi
    constructor
    · intro hnone
      simp [human_feedback_input, hnone, pendingHint, pendingPayload, pendingResult]
    · intro tc htc
      simp only [human_feedback_input, htc]
      constructor
      · cases hcf : tc.confirmed <;> simp [hcf]
      · cases hcf : tc.confirmed <;> simp [hcf, effectiveFeedback]
  · intro ps v h
    induction ps with
    | nil => cases h
    | cons p ps ih =>
      cases p with
      | text s =>
        by_cases hs : s = ""
        · subst hs
          obtain ⟨s2, kvs, hmem, hjl, hjg⟩ := ih (by simpa [scanFeedback] using h)
          exact ⟨s2, kvs, List.mem_cons_of_mem _ hmem, hjl, hjg⟩
        · rw [show scanFeedback (Part.text s :: ps) =
              (match json_loads s with
               | some (.obj kvs) =>
                 match jget kvs "human_input" with
                 | some v2 => some v2
                 | none => scanFeedback ps
               | _ => scanFeedback ps) from by simp [scanFeedback, hs]] at h
          split at h
          · rename_i kvs heq
            split at h
            · rename_i v2 hjg
              injection h with hv
              subst hv
              exact ⟨s, kvs, List.mem_cons_self _ _, heq, hjg⟩
            · obtain ⟨s2, kvs2, hmem, hjl2, hjg2⟩ := ih h
              exact ⟨s2, kvs2, List.mem_cons_of_mem _ hmem, hjl2, hjg2⟩
          · obtain ⟨s2, kvs2, hmem, hjl2, hjg2⟩ := ih h
            exact ⟨s2, kvs2, List.mem_cons_of_mem _ hmem, hjl2, hjg2⟩
      | function_call name id args =>
        obtain ⟨s2, kvs, hmem, hjl, hjg⟩ := ih (by simpa [scanFeedback] using h)
        exact ⟨s2, kvs, List.mem_cons_of_mem _ hmem, hjl, hjg⟩
      | function_response id name resp =>
        obtain ⟨s2, kvs, hmem, hjl, hjg⟩ := ih (by simpa [scanFeedback] using h)
        exact ⟨s2, kvs, List.mem_cons_of_mem _ hmem, hjl, hjg⟩

/-- Witness for C4: an approved confirmation with direct human input. -/
theorem c4_human_feedback_witness :
    (human_feedback_input ["Day 1: A"]
        ⟨"human_feedback_agent", false, some ⟨true⟩, none, none⟩ (some "nice")).2 =
      .obj [("status", .str "approved"), ("feedback", .str "nice")] := by
  have h := (c4_human_feedback.1 ["Day 1: A"]
    ⟨"human_feedback_agent", false, some ⟨true⟩, none, none⟩ (some "nice")).2 ⟨true⟩ rfl
  rw [h.2]
  rfl

/-- C7: exit_loop sets the escalation flag and returns the approved
response; exit_inner_loop returns the identical response while leaving the
whole context — in particular the escalation flag — unchanged, and
human_feedback_input never changes the escalation flag either. -/
theorem c7_escalation_tools (ctx : ToolContext) (plans : List String) (hi : Option String) :
    (exit_loop ctx).1 = { ctx with escalate := true } ∧
    (exit_loop ctx).2 =
      .obj [("status", .str "approved"),
            ("message", .str "Lesson/content plan approved. Exiting refinement loop.")] ∧
    exit_inner_loop ctx = (ctx, (exit_loop ctx).2) ∧
    (human_feedback_input plans ctx hi).1.escalate = ctx.escalate := by
  refine ⟨rfl, rfl, rfl, ?_⟩
  cases htc : ctx.tool_confirmation with
  | none => simp [human_feedback_input, htc]
  | some tc =>
    simp only [human_feedback_input, htc]
    cases hcf : tc.confirmed <;> simp [hcf]

/-- getLast? through a cons, phrased with getD. -/
theorem getLastD_cons {α : Type} (x : α) (l : List α) (a : α) :
    ((x :: l).getLast?).getD a = (l.getLast?).getD x := by
  induction l generalizing x a with
  | nil => rfl
  | cons y ys ih => rw [List.getLast?_cons_cons, ih, ih]

/-- getLast? through an append, phrased with getD. -/
theorem getLastD_append {α : Type} (xs ys : List α) (a : α) :
    ((xs ++ ys).getLast?).getD a = (ys.getLast?).getD ((xs.getLast?).getD a) := by
  induction xs generalizing a with
  | nil => simp
  | cons x xs ih => rw [List.cons_append, getLastD_cons, ih, getLastD_cons]

/-- One step of the final-plan part loop: keep the accepted candidate of a
nonempty text, else the accumulator. -/
theorem planPartStep_eq (acc : List Json) (p : Part) :
    planPartStep acc p = (((textSel p).bind acceptPlan).getD acc) := by
  cases p with
  | text s =>
    by_cases hs : s = ""
    · simp [planPartStep, textSel, hs]
    · simp only [planPartStep, textSel, if_pos hs, Option.bind]
      cases hap : acceptPlan s <;> simp [hs, hap]
  | function_call name id args => simp [planPartStep, textSel]
  | function_response id name resp => simp [planPartStep, textSel]

/-- Folding the final-plan step over a part list keeps the last accepted
candidate. -/
theorem foldl_plan_parts (ps : List Part) (acc : List Json) :
    ps.foldl planPartStep acc =
      ((ps.filterMap (fun p => (textSel p).bind acceptPlan)).getLast?).getD acc := by
  induction ps generalizing acc with
  | nil => rfl
  | cons p ps ih =>
    rw [List.foldl_cons, planPartStep_eq, ih]
    cases hc : (textSel p).bind acceptPlan with
    | none => simp [List.filterMap_cons, hc]
    | some xs => simp [List.filterMap_cons, hc, getLastD_cons]

/-- One event of the final-plan loop contributes the accepted candidates of
its nonempty final-response texts. -/
theorem planEventStep_eq (acc : List Json) (ev : Event) :
    planEventStep acc ev =
      (((if ev.is_final then (eventParts ev).filterMap textSel else []).filterMap
          acceptPlan).getLast?).getD acc := by
  by_cases hf : ev.is_final
  · cases hc : ev.content with
    | none => simp [planEventStep, eventParts, hf, hc]
    | some c =>
      simp [planEventStep, eventParts, hf, hc, foldl_plan_parts, List.filterMap_filterMap]
  · simp [planEventStep, hf]

/-- Folding the final-plan loop over the transcript keeps the last accepted
candidate of the final texts. -/
theorem foldl_plan_events (evs : List Event) (acc : List Json) :
    evs.foldl planEventStep acc =
      (((finalTexts evs).filterMap acceptPlan).getLast?).getD acc := by
  induction evs generalizing acc with
  | nil => rfl
  | cons ev evs ih =>
    rw [List.foldl_cons, planEventStep_eq, ih]
    have hft : finalTexts (ev :: evs) =
        (if ev.is_final then (eventParts ev).filterMap textSel else []) ++ finalTexts evs := by
      simp [finalTexts]
    rw [hft, List.filterMap_append, getLastD_append]

/-- C8: the final extraction accepts a final-response text only when it
parses (after fence stripping) to a JSON array of strings each starting with
"Day "; every other candidate — including valid JSON of any other shape —
is ignored, and the last accepted candidate in event order is the result
(the empty list when there is none). -/
theorem c8_final_plan_extraction :
    (∀ evs : List Event,
      lessonFinalExtract evs = (((finalTexts evs).filterMap acceptPlan).getLast?).getD []) ∧
    (∀ (t : String) (xs : List Json),
      acceptPlan t = some xs ↔
        safe_json_loads t = .ok (some (.arr xs)) ∧
        ∀ x ∈ xs, ∃ s, x = .str s ∧ "Day ".data.isPrefixOf s.data) := by
  constructor
  · intro evs
    exact foldl_plan_events evs []
  · intro t xs
    constructor
    · intro h
      unfold acceptPlan at h
      split at h
      · rename_i ys hsj
        split at h
        · rename_i hall
          injection h with hxs
          subst hxs
          refine ⟨hsj, ?_⟩
          intro x hx
          have hd := List.all_eq_true.mp hall x hx
          cases x with
          | str s => exact ⟨s, rfl, by simpa [isDayStringJson] using hd⟩
          | null => simp [isDayStringJson] at hd
          | bool b => simp [isDayStringJson] at hd
          | num lex => simp [isDayStringJson] at hd
          | arr items => simp [isDayStringJson] at hd
          | obj entries => simp [isDayStringJson] at hd
        · cases h
      · cases h
    · rintro ⟨hsj, hday⟩
      unfold acceptPlan
      rw [hsj]
      have hall : xs.all isDayStringJson = true := by
        rw [List.all_eq_true]
        intro x hx
        obtain ⟨s, rfl, hpre⟩ := hday x hx
        simpa [isDayStringJson] using hpre
      simp [hall]

/-- A transcript with two final plan candidates, for the C8 witness. -/
def c8_example_events : List Event :=
  [⟨"inv3", true, some ⟨"model", [.text "[\"Day 1: A\"]"]⟩⟩,
   ⟨"inv3", true, some ⟨"model", [.text "[\"Day 2: B\"]"]⟩⟩]

/-- Witness for C8 at a concrete transcript. -/
theorem c8_final_plan_extraction_witness :
    lessonFinalExtract c8_example_events =
      (((finalTexts c8_example_events).filterMap acceptPlan).getLast?).getD [] :=
  c8_final_plan_extraction.1 c8_example_events

end AiLearn
